import Mathlib

/-!
Verification of the metric adapter (`compute_metrics`) and the dataset-column
handling of `get_trainer` from `src/nlp_project/training/training_adv.py`.

The embedding models:
* `np.argmax(predictions, axis=2)` as `npArgmax`, the index of the first
  maximal entry of a score vector (scores modelled as rationals);
* Python list indexing `all_labels[i]` as `pyGet`, which supports negative
  indices and fails (`none`) on out-of-range indices, mirroring `IndexError`;
* the two list comprehensions building `true_predictions` / `true_labels`
  as `mapOpt` over `keptPairs` (the `zip` + `if l != -100` filter);
* the seqeval evaluator, which is an external dependency not present in the
  repository, from the specification's description of its semantics;
* the `remove_columns` logic of `get_trainer` at the level of column-name
  lists.
-/

/-- Index of the first maximal element of a score vector, like
`np.argmax` on the last axis. `np.argmax` returns the lowest index attaining
the maximum; on an empty vector the source would fail, here we return 0 and
the theorems that need it assume nonemptiness. -/
def npArgmax : List ℚ → Nat
  | [] => 0
  | [_] => 0
  | x :: y :: rest =>
    let m := npArgmax (y :: rest)
    if x < (y :: rest).getD m 0 then m + 1 else 0

/-- The per-position argmax of a 3D prediction tensor, modelling
`predictions = np.argmax(predictions, axis=2)` (line 23). -/
def argmaxed (predictions : List (List (List ℚ))) : List (List Nat) :=
  predictions.map (fun row => row.map npArgmax)

/-- Python list indexing `l[i]`: nonnegative indices below the length, or
negative indices `-len ≤ i < 0` counted from the end; anything else raises
`IndexError`, modelled as `none`. -/
def pyGet (l : List String) (i : Int) : Option String :=
  if 0 ≤ i ∧ i < (l.length : Int) then l.get? i.toNat
  else if -(l.length : Int) ≤ i ∧ i < 0 then l.get? (i + (l.length : Int)).toNat
  else none

/-- Elementwise evaluation of a fallible function over a list, failing as a
whole if any element fails: the semantics of a Python list comprehension
whose body can raise. -/
def mapOpt (f : α → Option β) : List α → Option (List β)
  | [] => some []
  | x :: xs => do
    let y ← f x
    let ys ← mapOpt f xs
    pure (y :: ys)

/-- The `(p, l)` pairs surviving the comprehension filter: `zip(prediction,
label)` restricted to `l != -100` (lines 25-32). `zip` truncates to the
shorter row. -/
def keptPairs (pred : List Nat) (lab : List Int) : List (Nat × Int) :=
  (pred.zip lab).filter (fun pl => pl.2 ≠ -100)

/-- One row of `true_predictions`: decode the predicted id of every kept
pair through the vocabulary (`all_labels[p]`). -/
def truePredRow (all_labels : List String) (pred : List Nat) (lab : List Int) :
    Option (List String) :=
  mapOpt (fun pl => pyGet all_labels (pl.1 : Int)) (keptPairs pred lab)

/-- One row of `true_labels`: decode the reference id of every kept pair
through the vocabulary (`all_labels[l]`). -/
def trueLabRow (all_labels : List String) (pred : List Nat) (lab : List Int) :
    Option (List String) :=
  mapOpt (fun pl => pyGet all_labels pl.2) (keptPairs pred lab)

/-- Embedding of `true_predictions` (lines 25-28): one decoded row per `zip(predictions,
labels)` pair. -/
def true_predictions (all_labels : List String) (preds : List (List Nat))
    (labels : List (List Int)) : Option (List (List String)) :=
  mapOpt (fun rl => truePredRow all_labels rl.1 rl.2) (preds.zip labels)

/-- Embedding of `true_labels` (lines 29-32): one decoded reference row per
`zip(predictions, labels)` pair. -/
def true_labels (all_labels : List String) (preds : List (List Nat))
    (labels : List (List Int)) : Option (List (List String)) :=
  mapOpt (fun rl => trueLabRow all_labels rl.1 rl.2) (preds.zip labels)

/-- Whether the tag's first two characters are the given marker letter
followed by a dash, as in `"B-PER"`. -/
def hasMarker (flag : Char) (tag : String) : Bool :=
  match tag.data with
  | c :: d :: _ => c == flag && d == '-'
  | _ => false

/-- The tag with its two-character marker removed: `"B-PER"` becomes
`"PER"`. -/
def tagBody (tag : String) : String :=
  String.mk (tag.data.drop 2)

/-- The entity type of a tag: `none` for `"O"`, otherwise the text after a
`B-` or `I-` marker (a bare non-O tag is its own type). -/
def tagType (tag : String) : Option String :=
  if tag = "O" then none
  else if hasMarker 'B' tag then some (tagBody tag)
  else if hasMarker 'I' tag then some (tagBody tag)
  else some tag

/-- Modelled from the spec: span extraction of the external seqeval
evaluator, absent from the repository. "An entity span is a maximal run of
non-O tags sharing a type, following a standard B/I tagging convention":
a `B-` tag always opens a new span, an `I-` tag of the same type continues
the current one. Accumulates `(type, start, stop)` triples with `stop`
exclusive; `i` is the index of the next tag and `cur` the open span. -/
def spansGo : Nat → Option (String × Nat) → List String → List (String × Nat × Nat)
  | i, some (t, s), [] => [(t, s, i)]
  | _, none, [] => []
  | i, cur, tag :: rest =>
    match tagType tag, cur with
    | none, none => spansGo (i + 1) none rest
    | none, some (t, s) => (t, s, i) :: spansGo (i + 1) none rest
    | some ty, none => spansGo (i + 1) (some (ty, i)) rest
    | some ty, some (t, s) =>
      if ty = t ∧ ¬ hasMarker 'B' tag then spansGo (i + 1) (some (t, s)) rest
      else (t, s, i) :: spansGo (i + 1) (some (ty, i)) rest

/-- Entity spans of one tag sequence. -/
def spansOf (tags : List String) : List (String × Nat × Nat) :=
  spansGo 0 none tags

/-- Entity spans of a batch, each tagged with its example index so spans of
different examples never coincide. -/
def batchSpans (seqs : List (List String)) : List (Nat × String × Nat × Nat) :=
  seqs.enum.flatMap (fun p => (spansOf p.2).map (fun s => (p.1, s)))

/-- Division with the convention that an empty denominator yields a perfect
score of 1, so that perfect agreement scores 1.0 even when no spans or no
tokens exist, as the specification's properties require. -/
def safeDiv (a b : ℚ) : ℚ := if b = 0 then 1 else a / b

/-- The four scalars returned by `compute_metrics`. -/
structure MetricResults where
  precision : ℚ
  «recall» : ℚ
  f1 : ℚ
  accuracy : ℚ
deriving DecidableEq

/-- Modelled from the spec: the external seqeval evaluator (loaded by name,
not part of the repository). Precision, recall and F1 are computed over
entity spans; accuracy over raw tags. -/
def seqevalCompute (preds refs : List (List String)) : MetricResults :=
  let ps := batchSpans preds
  let ts := batchSpans refs
  let nc : ℚ := (ps.countP (fun s => s ∈ ts) : Nat)
  let prec := safeDiv nc (ps.length : Nat)
  let rcl := safeDiv nc (ts.length : Nat)
  let f1 := safeDiv (2 * prec * rcl) (prec + rcl)
  let correct : ℚ := ((preds.flatten.zip refs.flatten).countP (fun pr => pr.1 = pr.2) : Nat)
  let acc := safeDiv correct (refs.flatten.length : Nat)
  ⟨prec, rcl, f1, acc⟩

/-- Embedding of `compute_metrics` (lines 21-43): argmax the prediction tensor, decode
predicted and reference sequences, score them with the evaluator and return
the four scalars. A decoding `IndexError` aborts the whole call (`none`). -/
def compute_metrics (all_labels : List String)
    (predictions : List (List (List ℚ))) (labels : List (List Int)) :
    Option MetricResults := do
  let preds := argmaxed predictions
  let tp ← true_predictions all_labels preds labels
  let tl ← true_labels all_labels preds labels
  pure (seqevalCompute tp tl)

/-- The indices of the positions a row's comprehension keeps: positions of
the zipped range whose reference label differs from the sentinel. -/
def keptIdx (pred : List Nat) (lab : List Int) : List Nat :=
  (List.range (min pred.length lab.length)).filter (fun i => lab.getD i 0 ≠ -100)

/-- Column names left after `datasets.remove_columns`: removing a column a
dataset does not have raises, modelled as `none`. -/
def remove_columns (colNames toRemove : List String) : Option (List String) :=
  if toRemove.all (fun c => c ∈ colNames) then
    some (colNames.filter (fun c => c ∉ toRemove))
  else none

/-- The column handling of `get_trainer` (lines 93-99): the removal list is
computed from the train dataset's columns, then removed from both datasets. -/
def get_trainer_columns (trainCols valCols : List String) :
    Option (List String × List String) := do
  let columns_to_remove := trainCols.filter (fun col => col ∉ ["input_ids", "labels"])
  let t ← remove_columns trainCols columns_to_remove
  let v ← remove_columns valCols columns_to_remove
  pure (t, v)

/-- A comprehension that succeeds yields one output per input element. -/
theorem mapOpt_length (f : α → Option β) :
    ∀ (l : List α) (r : List β), mapOpt f l = some r → r.length = l.length := by
  intro l
  induction l with
  | nil =>
    intro r h
    simp only [mapOpt, Option.some_inj] at h
    subst h
    rfl
  | cons x xs ih =>
    intro r h
    simp only [mapOpt] at h
    cases hf : f x with
    | none => rw [hf] at h; simp at h
    | some y =>
      rw [hf] at h
      cases hm : mapOpt f xs with
      | none => rw [hm] at h; simp at h
      | some ys =>
        rw [hm] at h
        simp at h
        subst h
        simp [ih ys hm]

/-- Two fallible bodies that agree on the list's elements give the same
comprehension result. -/
theorem mapOpt_congr (f g : α → Option β) :
    ∀ (l : List α), (∀ x ∈ l, f x = g x) → mapOpt f l = mapOpt g l := by
  intro l
  induction l with
  | nil => intro _; rfl
  | cons x xs ih =>
    intro h
    simp only [mapOpt]
    rw [h x (by simp), ih (fun y hy => h y (by simp [hy]))]

/-- A comprehension fails as soon as its body fails on any element. -/
theorem mapOpt_eq_none (f : α → Option β) :
    ∀ (l : List α) (x : α), x ∈ l → f x = none → mapOpt f l = none := by
  intro l
  induction l with
  | nil => intro x hx; cases hx
  | cons a as ih =>
    intro x hx hfx
    simp only [mapOpt]
    rcases List.mem_cons.mp hx with h | h
    · subst h; rw [hfx]; rfl
    · rw [ih x h hfx]; cases f a <;> rfl

/-- Mapping a pure function before a fallible comprehension composes. -/
theorem mapOpt_map (f : β → Option γ) (g : α → β) :
    ∀ (l : List α), mapOpt f (l.map g) = mapOpt (fun x => f (g x)) l := by
  intro l
  induction l with
  | nil => rfl
  | cons x xs ih => simp only [List.map_cons, mapOpt]; rw [ih]

/-- Elementwise view of a successful comprehension. -/
theorem mapOpt_get? (f : α → Option β) :
    ∀ (l : List α) (r : List β), mapOpt f l = some r →
      ∀ i : Nat, (l.get? i).bind f = r.get? i := by
  intro l
  induction l with
  | nil =>
    intro r h i
    simp only [mapOpt, Option.some_inj] at h
    subst h
    simp
  | cons x xs ih =>
    intro r h i
    simp only [mapOpt] at h
    cases hf : f x with
    | none => rw [hf] at h; simp at h
    | some y =>
      rw [hf] at h
      cases hm : mapOpt f xs with
      | none => rw [hm] at h; simp at h
      | some ys =>
        rw [hm] at h
        simp at h
        subst h
        cases i with
        | zero => simp [hf]
        | succ n => simpa using ih ys hm n

/-- The kept pairs are exactly the id pairs read off at the kept indices. -/
theorem keptPairs_eq_map_keptIdx :
    ∀ (pred : List Nat) (lab : List Int),
      keptPairs pred lab =
        (keptIdx pred lab).map (fun i => (pred.getD i 0, lab.getD i 0)) := by
  intro pred
  induction pred with
  | nil =>
    intro lab
    simp [keptPairs, keptIdx]
  | cons p ps ih =>
    intro lab
    cases lab with
    | nil => simp [keptPairs, keptIdx]
    | cons l ls =>
      have hmin : min (ps.length + 1) (ls.length + 1) = min ps.length ls.length + 1 :=
        Nat.succ_min_succ ps.length ls.length
      have ihl := ih ls
      rw [keptPairs, keptIdx] at ihl ⊢
      rw [List.zip_cons_cons, List.filter_cons, List.length_cons, List.length_cons,
        hmin, List.range_succ_eq_map, List.filter_cons]
      simp only [List.getD_cons_zero, List.getD_cons_succ, List.filter_map,
        Function.comp_def, List.map_cons, List.map_map, decide_not] at ihl ⊢
      by_cases hl : l = -100
      · subst hl
        rw [ihl]
        simp [Function.comp_def]
      · rw [ihl]
        simp [Function.comp_def, hl]

/-- `npArgmax` returns a valid index of a maximal element, and the first
such index: every earlier entry is strictly smaller. -/
theorem npArgmax_spec :
    ∀ (l : List ℚ), l ≠ [] →
      npArgmax l < l.length ∧
      (∀ k, k < l.length → l.getD k 0 ≤ l.getD (npArgmax l) 0) ∧
      (∀ k, k < npArgmax l → l.getD k 0 < l.getD (npArgmax l) 0) := by
  intro l
  induction l with
  | nil => intro h; exact absurd rfl h
  | cons x xs ih =>
    intro _
    cases xs with
    | nil =>
      refine ⟨by simp [npArgmax], ?_, ?_⟩
      · intro k hk
        have : k = 0 := by simpa using Nat.lt_one_iff.mp (by simpa using hk)
        subst this
        simp [npArgmax]
      · intro k hk
        simp [npArgmax] at hk
    | cons y rest =>
      obtain ⟨ih1, ih2, ih3⟩ := ih (by simp)
      simp only [npArgmax]
      by_cases hx : x < (y :: rest).getD (npArgmax (y :: rest)) 0
      · rw [if_pos hx]
        refine ⟨?_, ?_, ?_⟩
        · simpa using Nat.succ_lt_succ ih1
        · intro k hk
          cases k with
          | zero => simpa [List.getD_cons_zero, List.getD_cons_succ] using hx.le
          | succ n =>
            simp only [List.getD_cons_succ]
            exact ih2 n (by simpa using hk)
        · intro k hk
          cases k with
          | zero => simpa [List.getD_cons_zero, List.getD_cons_succ] using hx
          | succ n =>
            simp only [List.getD_cons_succ]
            exact ih3 n (by simpa using hk)
      · rw [if_neg hx]
        push_neg at hx
        refine ⟨by simp, ?_, ?_⟩
        · intro k hk
          cases k with
          | zero => simp
          | succ n =>
            simp only [List.getD_cons_succ, List.getD_cons_zero]
            exact le_trans (ih2 n (by simpa using hk)) hx
        · intro k hk
          exact absurd hk (Nat.not_lt_zero k)

/-- Division by a quantity equal to itself gives 1 under the perfect-score
convention. -/
theorem safeDiv_self (a : ℚ) : safeDiv a a = 1 := by
  rw [safeDiv]
  split
  · rfl
  · exact div_self (by assumption)

/-- Counting a list's members inside itself counts everything. -/
theorem countP_mem_self (l : List (Nat × String × Nat × Nat)) :
    l.countP (fun s => s ∈ l) = l.length :=
  List.countP_eq_length.mpr (fun a ha => by simpa using ha)

/-- Zipping a list with itself makes every position agree. -/
theorem zip_self_countP_eq_length : ∀ (l : List String),
    (l.zip l).countP (fun pr => pr.1 = pr.2) = l.length := by
  intro l
  induction l with
  | nil => rfl
  | cons x xs ih => simp [List.zip_cons_cons, List.countP_cons, ih]

/-- Scoring identical predicted and reference batches yields perfect
precision, recall, F1 and accuracy. -/
theorem seqevalCompute_self (x : List (List String)) :
    seqevalCompute x x = ⟨1, 1, 1, 1⟩ := by
  simp only [seqevalCompute, countP_mem_self, zip_self_countP_eq_length, safeDiv_self]
  norm_num [safeDiv]

/-- `zip` only sees each list up to the other's length. -/
theorem zip_eq_zip_take : ∀ (p : List α) (l : List β),
    p.zip l = (p.take l.length).zip (l.take p.length) := by
  intro p
  induction p with
  | nil => intro l; simp
  | cons x xs ih =>
    intro l
    cases l with
    | nil => simp
    | cons y ys =>
      simp only [List.zip_cons_cons, List.length_cons, List.take_succ_cons]
      rw [ih ys]

/-- The reference components of the zipped pairs are the first
`pred.length` labels. -/
theorem map_snd_zip_eq_take : ∀ (p : List Nat) (l : List Int),
    (p.zip l).map Prod.snd = l.take p.length := by
  intro p
  induction p with
  | nil => intro l; simp
  | cons x xs ih =>
    intro l
    cases l with
    | nil => simp
    | cons y ys =>
      simp only [List.zip_cons_cons, List.map_cons, List.length_cons, List.take_succ_cons]
      rw [ih ys]

/-- The number of kept pairs is the number of non-sentinel labels among the
paired positions. -/
theorem keptPairs_length (pred : List Nat) (lab : List Int) :
    (keptPairs pred lab).length = (lab.take pred.length).countP (fun l => l ≠ -100) := by
  rw [keptPairs, ← List.countP_eq_length_filter, ← map_snd_zip_eq_take pred lab, List.countP_map]
  rfl

/-- Claim C1: a position is dropped from the decoded output iff its
reference label id equals the ignore sentinel -100; the surviving positions
feed both decoded sequences, read off at the same strictly increasing list
of original positions, so their original relative order is preserved. -/
theorem decode_drops_iff_sentinel (vocab : List String) (pred : List Nat) (lab : List Int)
    (out_p out_l : List String)
    (hp : truePredRow vocab pred lab = some out_p)
    (hl : trueLabRow vocab pred lab = some out_l) :
    (keptIdx pred lab).Pairwise (· < ·) ∧
    mapOpt (fun i => pyGet vocab (pred.getD i 0 : Int)) (keptIdx pred lab) = some out_p ∧
    mapOpt (fun i => pyGet vocab (lab.getD i 0)) (keptIdx pred lab) = some out_l := by
  refine ⟨List.Pairwise.sublist (List.filter_sublist _) (List.pairwise_lt_range _), ?_, ?_⟩
  · rw [truePredRow, keptPairs_eq_map_keptIdx, mapOpt_map] at hp
    exact hp
  · rw [trueLabRow, keptPairs_eq_map_keptIdx, mapOpt_map] at hl
    exact hl

/-- Witness for C1 at `pred = [0, 1, 0]`, `lab = [0, -100, 1]`: position 1
is dropped, positions 0 and 2 survive in order in both decoded sequences. -/
theorem decode_drops_iff_sentinel_witness :
    (keptIdx [0, 1, 0] [0, -100, 1]).Pairwise (· < ·) ∧
    mapOpt (fun i => pyGet ["O", "B-PER"] (([0, 1, 0].getD i 0 : Nat) : Int))
      (keptIdx [0, 1, 0] [0, -100, 1]) = some ["O", "O"] ∧
    mapOpt (fun i => pyGet ["O", "B-PER"] ([0, -100, 1].getD i 0))
      (keptIdx [0, 1, 0] [0, -100, 1]) = some ["O", "B-PER"] :=
  decode_drops_iff_sentinel ["O", "B-PER"] [0, 1, 0] [0, -100, 1]
    ["O", "O"] ["O", "B-PER"] (by decide) (by decide)

/-- Claim C2: for every example, the decoded predicted and decoded
reference sequences have the same length (and the two decoded batches have
the same number of examples). -/
theorem decoded_lengths_equal (vocab : List String)
    (predictions : List (List (List ℚ))) (labels : List (List Int))
    (tp tl : List (List String))
    (hp : true_predictions vocab (argmaxed predictions) labels = some tp)
    (hl : true_labels vocab (argmaxed predictions) labels = some tl) :
    tp.length = tl.length ∧
    ∀ i : Nat, ((tp.get? i).getD []).length = ((tl.get? i).getD []).length := by
  have hlenP := mapOpt_length _ _ _ hp
  have hlenL := mapOpt_length _ _ _ hl
  refine ⟨by rw [hlenP, hlenL], ?_⟩
  intro i
  have h1 := mapOpt_get? _ _ _ hp i
  have h2 := mapOpt_get? _ _ _ hl i
  cases hz : ((argmaxed predictions).zip labels).get? i with
  | none =>
    rw [hz] at h1 h2
    simp only [Option.none_bind] at h1 h2
    rw [← h1, ← h2]
  | some pl =>
    have hi : i < ((argmaxed predictions).zip labels).length := by
      rcases List.get?_eq_some.mp hz with ⟨h, _⟩
      exact h
    rw [hz] at h1 h2
    simp only [Option.some_bind] at h1 h2
    cases hrowP : truePredRow vocab pl.1 pl.2 with
    | none =>
      rw [hrowP] at h1
      have : tp.get? i = none := h1.symm
      rw [List.get?_eq_none, hlenP] at this
      omega
    | some a =>
      cases hrowL : trueLabRow vocab pl.1 pl.2 with
      | none =>
        rw [hrowL] at h2
        have : tl.get? i = none := h2.symm
        rw [List.get?_eq_none] at this
        rw [hlenL] at this
        omega
      | some b =>
        rw [hrowP] at h1
        rw [hrowL] at h2
        rw [← h1, ← h2]
        simp only [Option.getD_some]
        have ha := mapOpt_length _ _ _ hrowP
        have hb := mapOpt_length _ _ _ hrowL
        rw [ha, hb]

/-- Witness for C2 on a batch of one example with one masked position. -/
theorem decoded_lengths_equal_witness :
    ([["O", "B-PER"]] : List (List String)).length = ([["O", "B-PER"]] : List (List String)).length ∧
    ∀ i : Nat, ((([["O", "B-PER"]] : List (List String)).get? i).getD []).length =
      ((([["O", "B-PER"]] : List (List String)).get? i).getD []).length :=
  decoded_lengths_equal ["O", "B-PER"] [[[1, 0], [1, 0], [0, 1]]] [[0, -100, 1]]
    [["O", "B-PER"]] [["O", "B-PER"]] (by decide) (by decide)

/-- Claim C4: an example whose reference labels are all the ignore sentinel
contributes an empty decoded pair (both length 0) and decoding does not
fail, whatever the predicted ids are. -/
theorem all_masked_empty_pair (vocab : List String) (pred : List Nat) (lab : List Int)
    (hall : ∀ l ∈ lab, l = -100) :
    truePredRow vocab pred lab = some [] ∧ trueLabRow vocab pred lab = some [] := by
  have hk : keptPairs pred lab = [] := by
    rw [keptPairs, List.filter_eq_nil_iff]
    intro pl hpl
    obtain ⟨a, b⟩ := pl
    have hb := (List.of_mem_zip hpl).2
    simp [hall b hb]
  rw [truePredRow, trueLabRow, hk]
  exact ⟨rfl, rfl⟩

/-- Witness for C4: a fully masked example yields empty decoded sequences
even though the predicted ids 5 and 7 are far outside the vocabulary. -/
theorem all_masked_empty_pair_witness :
    truePredRow ["O"] [5, 7] [-100, -100] = some [] ∧
    trueLabRow ["O"] [5, 7] [-100, -100] = some [] :=
  all_masked_empty_pair ["O"] [5, 7] [-100, -100] (by decide)

/-- Counterexample to claim C5: the reference id -1 is outside the
vocabulary range `{0, 1}` and is not the sentinel, yet `compute_metrics`
does not fail: Python's negative indexing silently decodes -1 to the last
vocabulary entry "B-PER" and the call returns a result. -/
theorem negative_id_silently_decoded :
    compute_metrics ["O", "B-PER"] [[[1, 0]]] [[-1]] = some ⟨1, 0, 0, 0⟩ ∧
    true_labels ["O", "B-PER"] (argmaxed [[[1, 0]]]) [[-1]] = some [["B-PER"]] := by
  have h1 : true_predictions ["O", "B-PER"] (argmaxed [[[1, 0]]]) [[-1]] = some [["O"]] := by
    decide
  have h2 : true_labels ["O", "B-PER"] (argmaxed [[[1, 0]]]) [[-1]] = some [["B-PER"]] := by
    decide
  have h3 : batchSpans [["O"]] = [] := by decide
  have h4 : batchSpans [["B-PER"]] = [(0, "PER", 0, 1)] := by decide
  refine ⟨?_, h2⟩
  simp [compute_metrics, h1, h2, seqevalCompute, h3, h4, safeDiv, MetricResults.mk.injEq]

/-- Claim C5 as amended: an id whose Python lookup fails — a kept reference
id or a predicted argmax id `n` with `n ≥ len(vocab)` or `n < -len(vocab)`
— makes `compute_metrics` fail; ids negative but within `-len(vocab)` are
instead silently decoded by negative indexing (see the counterexample). -/
theorem out_of_range_id_fails (vocab : List String)
    (predictions : List (List (List ℚ))) (labels : List (List Int))
    (pred_row : List Nat) (lab_row : List Int) (p : Nat) (l : Int)
    (hrow : (pred_row, lab_row) ∈ (argmaxed predictions).zip labels)
    (hpair : (p, l) ∈ keptPairs pred_row lab_row)
    (hbad : pyGet vocab (p : Int) = none ∨ pyGet vocab l = none) :
    compute_metrics vocab predictions labels = none := by
  rcases hbad with hb | hb
  · have hrowP : truePredRow vocab pred_row lab_row = none :=
      mapOpt_eq_none _ _ _ hpair hb
    have hbatch : true_predictions vocab (argmaxed predictions) labels = none :=
      mapOpt_eq_none _ _ _ hrow hrowP
    simp [compute_metrics, hbatch]
  · have hrowL : trueLabRow vocab pred_row lab_row = none :=
      mapOpt_eq_none _ _ _ hpair hb
    have hbatch : true_labels vocab (argmaxed predictions) labels = none :=
      mapOpt_eq_none _ _ _ hrow hrowL
    cases htp : true_predictions vocab (argmaxed predictions) labels with
    | none => simp [compute_metrics, htp]
    | some tp => simp [compute_metrics, htp, hbatch]

/-- Witness for the amended C5: with vocabulary `["O"]` the predicted
argmax id 1 is out of range and the whole call fails. -/
theorem out_of_range_id_fails_witness :
    compute_metrics ["O"] [[[0, 1]]] [[0]] = none :=
  out_of_range_id_fails ["O"] [[[0, 1]]] [[0]] [1] [0] 1 0
    (by decide) (by decide) (Or.inl (by decide))

/-- Claim C6: the predicted id `compute_metrics` uses at each token
position is the argmax of the label-score vector at that position: a valid
index of a maximal score, the first one in case of ties. -/
theorem predicted_id_is_argmax (predictions : List (List (List ℚ))) (i j : Nat)
    (row : List (List ℚ)) (scores : List ℚ)
    (hi : predictions.get? i = some row) (hj : row.get? j = some scores)
    (hne : scores ≠ []) :
    ((argmaxed predictions).get? i).bind (fun r => r.get? j) = some (npArgmax scores) ∧
    npArgmax scores < scores.length ∧
    (∀ k, k < scores.length → scores.getD k 0 ≤ scores.getD (npArgmax scores) 0) ∧
    (∀ k, k < npArgmax scores → scores.getD k 0 < scores.getD (npArgmax scores) 0) := by
  obtain ⟨h1, h2, h3⟩ := npArgmax_spec scores hne
  refine ⟨?_, h1, h2, h3⟩
  rw [List.get?_eq_getElem?] at hi hj
  simp [argmaxed, List.get?_eq_getElem?, List.getElem?_map, hi, hj]

/-- Witness for C6 at a single position with scores `[1, 3, 2]`: the id
used is 1, the index of the maximum. -/
theorem predicted_id_is_argmax_witness :
    ((argmaxed [[[1, 3, 2]]]).get? 0).bind (fun r => r.get? 0) = some (npArgmax [1, 3, 2]) ∧
    npArgmax [1, 3, 2] < ([1, 3, 2] : List ℚ).length ∧
    (∀ k, k < ([1, 3, 2] : List ℚ).length →
      ([1, 3, 2] : List ℚ).getD k 0 ≤ ([1, 3, 2] : List ℚ).getD (npArgmax [1, 3, 2]) 0) ∧
    (∀ k, k < npArgmax [1, 3, 2] →
      ([1, 3, 2] : List ℚ).getD k 0 < ([1, 3, 2] : List ℚ).getD (npArgmax [1, 3, 2]) 0) :=
  predicted_id_is_argmax [[[1, 3, 2]]] 0 0 [[1, 3, 2]] [1, 3, 2] rfl rfl (by decide)

/-- Claim C8: `compute_metrics` is a pure function of its inputs — the
embedding is stateless, so identical `(predictions, labels)` inputs give
identical decoded sequences and identical summary statistics. -/
theorem compute_metrics_deterministic (vocab : List String)
    (p p' : List (List (List ℚ))) (l l' : List (List Int))
    (hp : p = p') (hl : l = l') :
    compute_metrics vocab p l = compute_metrics vocab p' l' ∧
    true_predictions vocab (argmaxed p) l = true_predictions vocab (argmaxed p') l' ∧
    true_labels vocab (argmaxed p) l = true_labels vocab (argmaxed p') l' := by
  subst hp
  subst hl
  exact ⟨rfl, rfl, rfl⟩

/-- Witness for C8 at a concrete input run twice. -/
theorem compute_metrics_deterministic_witness :
    compute_metrics ["O"] [[[1, 0]]] [[0]] = compute_metrics ["O"] [[[1, 0]]] [[0]] ∧
    true_predictions ["O"] (argmaxed [[[1, 0]]]) [[0]] =
      true_predictions ["O"] (argmaxed [[[1, 0]]]) [[0]] ∧
    true_labels ["O"] (argmaxed [[[1, 0]]]) [[0]] =
      true_labels ["O"] (argmaxed [[[1, 0]]]) [[0]] :=
  compute_metrics_deterministic ["O"] [[[1, 0]]] [[[1, 0]]] [[0]] [[0]] rfl rfl

/-- Claim C7: when the argmax at every kept position equals the reference
label id, every returned summary statistic — precision, recall, f1 and
accuracy — equals 1. -/
theorem perfect_predictions_all_ones (vocab : List String)
    (predictions : List (List (List ℚ))) (labels : List (List Int)) (r : MetricResults)
    (hmatch : ∀ pred_row lab_row,
      (pred_row, lab_row) ∈ (argmaxed predictions).zip labels →
      ∀ p l, (p, l) ∈ keptPairs pred_row lab_row → (p : Int) = l)
    (hr : compute_metrics vocab predictions labels = some r) :
    r.precision = 1 ∧ r.«recall» = 1 ∧ r.f1 = 1 ∧ r.accuracy = 1 := by
  have heq : true_predictions vocab (argmaxed predictions) labels =
      true_labels vocab (argmaxed predictions) labels := by
    rw [true_predictions, true_labels]
    refine mapOpt_congr _ _ _ (fun rl hrl => ?_)
    obtain ⟨pr, lr⟩ := rl
    rw [truePredRow, trueLabRow]
    refine mapOpt_congr _ _ _ (fun pl hpl => ?_)
    obtain ⟨p, l⟩ := pl
    have hid := hmatch pr lr hrl p l hpl
    rw [hid]
  simp only [compute_metrics] at hr
  rw [← heq] at hr
  cases htp : true_predictions vocab (argmaxed predictions) labels with
  | none => rw [htp] at hr; simp at hr
  | some tp =>
    rw [htp] at hr
    simp at hr
    rw [← hr, seqevalCompute_self]
    exact ⟨rfl, rfl, rfl, rfl⟩

/-- Witness for C7: a two-position example whose argmaxes `[0, 1]` match
the reference ids exactly. -/
theorem perfect_predictions_all_ones_witness :
    MetricResults.precision ⟨1, 1, 1, 1⟩ = 1 ∧ MetricResults.«recall» ⟨1, 1, 1, 1⟩ = 1 ∧
    MetricResults.f1 ⟨1, 1, 1, 1⟩ = 1 ∧ MetricResults.accuracy ⟨1, 1, 1, 1⟩ = 1 :=
  perfect_predictions_all_ones ["O", "B-PER"] [[[1, 0], [0, 1]]] [[0, 1]] ⟨1, 1, 1, 1⟩
    (by
      intro pr lr hm p l hp
      have hz : (argmaxed [[[1, 0], [0, 1]]]).zip ([[0, 1]] : List (List Int)) =
          [([0, 1], [0, 1])] := by decide
      rw [hz] at hm
      simp only [List.mem_singleton, Prod.mk.injEq] at hm
      obtain ⟨h1, h2⟩ := hm
      subst h1
      subst h2
      have hk : keptPairs [0, 1] [0, 1] = [(0, 0), (1, 1)] := by decide
      rw [hk] at hp
      simp only [List.mem_cons, List.mem_singleton, Prod.mk.injEq,
        List.not_mem_nil, or_false] at hp
      rcases hp with ⟨hp1, hp2⟩ | ⟨hp1, hp2⟩ <;> subst hp1 <;> subst hp2 <;> rfl)
    (by
      have h1 : true_predictions ["O", "B-PER"] (argmaxed [[[1, 0], [0, 1]]]) [[0, 1]] =
          some [["O", "B-PER"]] := by decide
      have h2 : true_labels ["O", "B-PER"] (argmaxed [[[1, 0], [0, 1]]]) [[0, 1]] =
          some [["O", "B-PER"]] := by decide
      simp [compute_metrics, h1, h2, seqevalCompute_self])

/-- Claim C3: with labels `[[0, -100, 1]]`, any predictions whose per-token
argmax is `[0, x, 1]`, and vocabulary `{0 : "O", 1 : "B-PER"}`, both decoded
sequences are `["O", "B-PER"]` and the returned accuracy is 1, whatever the
argmax `x` at the masked position is. -/
theorem scenario_accuracy_one (predictions : List (List (List ℚ))) (x : Nat)
    (hargmax : argmaxed predictions = [[0, x, 1]]) :
    true_predictions ["O", "B-PER"] (argmaxed predictions) [[0, -100, 1]] =
      some [["O", "B-PER"]] ∧
    true_labels ["O", "B-PER"] (argmaxed predictions) [[0, -100, 1]] =
      some [["O", "B-PER"]] ∧
    ∃ r, compute_metrics ["O", "B-PER"] predictions [[0, -100, 1]] = some r ∧
      r.accuracy = 1 := by
  have hkept : keptPairs [0, x, 1] [0, -100, 1] = [(0, 0), (1, 1)] := by
    simp [keptPairs]
  have hg0 : pyGet ["O", "B-PER"] 0 = some "O" := by decide
  have hg1 : pyGet ["O", "B-PER"] 1 = some "B-PER" := by decide
  have h1 : true_predictions ["O", "B-PER"] [[0, x, 1]] [[0, -100, 1]] =
      some [["O", "B-PER"]] := by
    simp [true_predictions, truePredRow, hkept, mapOpt, hg0, hg1]
  have h2 : true_labels ["O", "B-PER"] [[0, x, 1]] [[0, -100, 1]] =
      some [["O", "B-PER"]] := by
    simp [true_labels, trueLabRow, hkept, mapOpt, hg0, hg1]
  refine ⟨by rw [hargmax]; exact h1, by rw [hargmax]; exact h2,
    seqevalCompute [["O", "B-PER"]] [["O", "B-PER"]], ?_, ?_⟩
  · simp [compute_metrics, hargmax, h1, h2]
  · rw [seqevalCompute_self]

/-- Witness for C3 with `x = 0`, realised by the score rows
`[[1,0], [1,0], [0,1]]`. -/
theorem scenario_accuracy_one_witness :
    true_predictions ["O", "B-PER"] (argmaxed [[[1, 0], [1, 0], [0, 1]]]) [[0, -100, 1]] =
      some [["O", "B-PER"]] ∧
    true_labels ["O", "B-PER"] (argmaxed [[[1, 0], [1, 0], [0, 1]]]) [[0, -100, 1]] =
      some [["O", "B-PER"]] ∧
    ∃ r, compute_metrics ["O", "B-PER"] [[[1, 0], [1, 0], [0, 1]]] [[0, -100, 1]] = some r ∧
      r.accuracy = 1 :=
  scenario_accuracy_one [[[1, 0], [1, 0], [0, 1]]] 0 (by decide)

/-- Counterexample to claim C9: the removal list is computed from the train
dataset's columns only, so a column of the validation dataset that the
train dataset lacks — here `"extra"` — survives, and the validation dataset
does not end up with exactly `input_ids` and `labels`. -/
theorem val_extra_column_survives :
    get_trainer_columns ["input_ids", "labels"] ["input_ids", "labels", "extra"] =
      some (["input_ids", "labels"], ["input_ids", "labels", "extra"]) := by
  decide

/-- Claim C9 as amended: `get_trainer` removes from both datasets exactly
the train dataset's columns other than `input_ids` and `labels`; the train
dataset thus keeps exactly its columns among those two, while the
validation dataset also keeps any of its columns the train dataset does
not have. -/
theorem columns_removed_from_train_list (trainCols valCols t v : List String)
    (h : get_trainer_columns trainCols valCols = some (t, v)) :
    t = trainCols.filter (fun c => c ∈ ["input_ids", "labels"]) ∧
    v = valCols.filter (fun c => c ∈ ["input_ids", "labels"] ∨ c ∉ trainCols) := by
  have hall : (trainCols.filter (fun col => col ∉ ["input_ids", "labels"])).all
      (fun c => c ∈ trainCols) = true := by
    rw [List.all_eq_true]
    intro c hc
    simpa using List.mem_of_mem_filter hc
  simp only [get_trainer_columns, remove_columns, hall, if_true, Option.bind_eq_bind,
    Option.some_bind] at h
  by_cases hv : (trainCols.filter (fun col => col ∉ ["input_ids", "labels"])).all
      (fun c => c ∈ valCols) = true
  · rw [if_pos hv] at h
    simp only [Option.pure_def, Option.some_bind, Option.some_inj, Prod.mk.injEq] at h
    obtain ⟨ht, hvv⟩ := h
    subst ht
    subst hvv
    constructor
    · refine List.filter_congr (fun c hc => ?_)
      simp [List.mem_filter, hc]
    · refine List.filter_congr (fun c hc => ?_)
      simp only [List.mem_filter, decide_eq_decide]
      constructor
      · intro hnot
        by_cases htc : c ∈ trainCols
        · left
          by_contra hnotin
          exact hnot (by simp [htc, hnotin])
        · right
          exact htc
      · intro hor hmem
        rcases hor with h2 | h2
        · have := hmem.2
          simp [h2] at this
        · exact h2 hmem.1
  · rw [if_neg hv, Option.none_bind] at h
    exact Option.noConfusion h

/-- Witness for the amended C9 on a train dataset with an extra column
`x1` shared by the validation dataset: both end with the two expected
columns. -/
theorem columns_removed_from_train_list_witness :
    (["input_ids", "labels"] : List String) =
      (["input_ids", "labels", "x1"] : List String).filter
        (fun c => c ∈ ["input_ids", "labels"]) ∧
    (["input_ids", "labels"] : List String) =
      (["input_ids", "labels", "x1"] : List String).filter
        (fun c => c ∈ ["input_ids", "labels"] ∨ c ∉ ["input_ids", "labels", "x1"]) :=
  columns_removed_from_train_list ["input_ids", "labels", "x1"] ["input_ids", "labels", "x1"]
    ["input_ids", "labels"] ["input_ids", "labels"] (by decide)

/-- Claim C10 (implicit): rows of different lengths do not make decoding
fail — `zip` pairs positions only up to the shorter row, so each decoded
row equals the one computed from the mutually truncated rows, and a
successful decode has exactly as many entries as there are non-sentinel
reference ids among the paired positions. -/
theorem length_mismatch_truncates (vocab : List String) (pred : List Nat) (lab : List Int) :
    truePredRow vocab pred lab =
      truePredRow vocab (pred.take lab.length) (lab.take pred.length) ∧
    trueLabRow vocab pred lab =
      trueLabRow vocab (pred.take lab.length) (lab.take pred.length) ∧
    ∀ out, truePredRow vocab pred lab = some out →
      out.length = (lab.take pred.length).countP (fun l => l ≠ -100) := by
  have hkept : keptPairs pred lab = keptPairs (pred.take lab.length) (lab.take pred.length) := by
    rw [keptPairs, keptPairs, ← zip_eq_zip_take]
  refine ⟨by rw [truePredRow, truePredRow, hkept], by rw [trueLabRow, trueLabRow, hkept], ?_⟩
  intro out hout
  rw [mapOpt_length _ _ _ hout]
  exact keptPairs_length pred lab

/-- Witness for C10: a three-id prediction row against a two-id label row
decodes without error to a single tag, the number of non-sentinel labels
among the two paired positions. -/
theorem length_mismatch_truncates_witness :
    (["O"] : List String).length =
      (([1, -100] : List Int).take ([0, 1, 0] : List Nat).length).countP
        (fun l => l ≠ -100) :=
  (length_mismatch_truncates ["O", "B-PER"] [0, 1, 0] [1, -100]).2.2 ["O"] (by decide)
